import Mathlib

set_option maxRecDepth 8192

/-!
Verification of the durable, cron-triggered job queue of the `crm` repository.

The entry point `src/src/main.rs` wires the apalis job-queue library to a
Postgres store and runs one worker (`say_hello_world`) on the six-field cron
expression "0 */2 * * * *" with `RetryPolicy::retries(5)`.  Pure helpers
(`sanitize_json`, the JSON-fallback logic of `send_email_via_agent`) and the
one-transaction importer `add_company_id` are embedded directly from the Rust
source.  The job-store operations (enqueue dedup, lease, retry decision, cron
evaluation) are implemented inside the apalis / cron crates, which are not part
of the repository source tree; those are modelled from the specification, as
marked on each definition.

Rust strings are modelled as `List Char`; Rust `Result` as `Except`.
-/

namespace Crm

/-- Embeds Rust `char::is_whitespace` (the Unicode White_Space property),
listing exactly the code points with that property. -/
def isRustWhitespace (c : Char) : Bool :=
  decide ((9 ≤ c.toNat ∧ c.toNat ≤ 13) ∨ c.toNat = 32 ∨ c.toNat = 133 ∨
    c.toNat = 160 ∨ c.toNat = 5760 ∨ (8192 ≤ c.toNat ∧ c.toNat ≤ 8202) ∨
    c.toNat = 8232 ∨ c.toNat = 8233 ∨ c.toNat = 8239 ∨ c.toNat = 8287 ∨
    c.toNat = 12288)

/-- Embeds Rust `str::trim_start`: drop leading whitespace. -/
def trimStart (s : List Char) : List Char :=
  s.dropWhile isRustWhitespace

/-- Embeds Rust `str::trim_end`: drop trailing whitespace. -/
def trimEnd (s : List Char) : List Char :=
  (s.reverse.dropWhile isRustWhitespace).reverse

/-- Embeds Rust `str::trim`: drop leading and trailing whitespace. -/
def trim (s : List Char) : List Char :=
  trimEnd (trimStart s)

/-- Embeds Rust `str::starts_with` for a string pattern. -/
def startsWith : List Char → List Char → Bool
  | [], _ => true
  | _ :: _, [] => false
  | p :: ps, c :: cs => p == c && startsWith ps cs

/-- Embeds Rust `str::ends_with` for a string pattern, via the reversal of
`starts_with`. -/
def endsWith (pat s : List Char) : Bool :=
  startsWith pat.reverse s.reverse

/-- Fuelled loop of Rust `str::trim_start_matches`: while the (non-empty)
pattern is a prefix, strip it.  Each successful strip removes at least one
character, so fuel `s.length` (as supplied by `trimStartMatches`) never runs
out before the loop condition fails. -/
def trimStartMatchesAux (pat : List Char) : Nat → List Char → List Char
  | 0, s => s
  | fuel + 1, s =>
    if !pat.isEmpty && startsWith pat s then
      trimStartMatchesAux pat fuel (s.drop pat.length)
    else s

/-- Embeds Rust `str::trim_start_matches`: repeatedly strip the pattern from
the front. -/
def trimStartMatches (pat s : List Char) : List Char :=
  trimStartMatchesAux pat s.length s

/-- Embeds Rust `str::trim_end_matches`: repeatedly strip the pattern from the
end, expressed by reversing `trim_start_matches`. -/
def trimEndMatches (pat s : List Char) : List Char :=
  (trimStartMatchesAux pat.reverse s.reverse.length s.reverse).reverse

/-- The code-fence-with-language-tag pattern stripped by `sanitize_json`. -/
def fenceJson : List Char :=
  "```json".toList

/-- The bare code-fence pattern stripped by `sanitize_json`. -/
def fence : List Char :=
  "```".toList

/-- Embeds `sanitize_json` from src/src/main.rs: trim whitespace, strip leading
"```json" fences, strip leading "```" fences, strip trailing "```" fences, trim
again. -/
def sanitize_json (input : List Char) : List Char :=
  trim (trimEndMatches fence (trimStartMatches fence
    (trimStartMatches fenceJson (trim input))))

/-- Outcome of one handler execution, as seen by the worker layer. -/
inductive HandlerOutcome where
  | success
  | handlerError (msg : List Char)
deriving DecidableEq

/-- Embeds `say_hello_world` from src/src/main.rs, as a function of the result
of `send_email_via_agent().await`: the function prints a greeting, logs the
email error if there is one (`if let Err(e) = ... { error!(...); eprintln!(...) }`),
then runs `svc.execute(job)` and returns `()`.  The returned pair is the list
of printed/logged lines and the handler outcome; the outcome is `success` on
both paths because the Rust function's return type is `()`. -/
def say_hello_world (emailResult : Except (List Char) Unit) :
    List (List Char) × HandlerOutcome :=
  match emailResult with
  | Except.ok _ =>
    (["Hello world from send_reminder()!".toList,
      "Hello world from CronjobData::execute()!".toList],
     HandlerOutcome.success)
  | Except.error e =>
    (["Hello world from send_reminder()!".toList,
      "Error sending email: ".toList ++ e,
      "Hello world from CronjobData::execute()!".toList],
     HandlerOutcome.success)

/-- Report sent to the job store after an attempt. -/
inductive WorkerReport where
  | acknowledge
  | fail (err : List Char)
deriving DecidableEq

/-- Modelled from the spec: the worker layer (apalis, not under src) calls
`acknowledge` when the handler returns success and `fail` when the handler
returns an error. -/
def workerReport (h : HandlerOutcome) : WorkerReport :=
  match h with
  | HandlerOutcome.success => WorkerReport.acknowledge
  | HandlerOutcome.handlerError e => WorkerReport.fail e

/-- A successfully parsed cron schedule (the payload is irrelevant to the
claims; only success or failure of parsing matters). -/
structure CronSchedule where
  expr : List Char
deriving DecidableEq

/-- The configured cron expression of src/src/main.rs. -/
def schedule_str : List Char :=
  "0 */2 * * * *".toList

/-- Observable events of `MyService::bind` in src/src/main.rs. -/
inductive BindEvent where
  | migrationsCompleted
  | cronStreamStarted
  | workerRun
  | panicked
deriving DecidableEq

/-- Embeds the sequencing of `MyService::bind` from src/src/main.rs as an event
trace, as a function of the results of `PostgresStorage::setup` and
`Schedule::from_str`: `setup(...).await.expect(...)` runs first and panics on
error; then `Schedule::from_str(schedule_str).expect(...)` panics on a parse
error; only then is the cron stream piped to storage and `worker.run().await`
reached. -/
def bindTrace (setupResult : Except (List Char) Unit)
    (parseResult : Except (List Char) CronSchedule) : List BindEvent :=
  match setupResult with
  | Except.error _ => [BindEvent.panicked]
  | Except.ok _ =>
    match parseResult with
    | Except.error _ => [BindEvent.migrationsCompleted, BindEvent.panicked]
    | Except.ok _ =>
      [BindEvent.migrationsCompleted, BindEvent.cronStreamStarted,
       BindEvent.workerRun]

/-- Model of `serde_json::Value`. -/
inductive JsonValue where
  | null
  | boolean (b : Bool)
  | number (n : Int)
  | str (s : List Char)
  | arr (elems : List JsonValue)
  | obj (fields : List (List Char × JsonValue))

/-- Key looked up for the email subject. -/
def subjectKey : List Char :=
  "subject".toList

/-- Key looked up for the email body. -/
def bodyKey : List Char :=
  "body".toList

/-- Fallback subject of `send_email_via_agent`. -/
def fallbackSubject : List Char :=
  "Daily Laugh 😄".toList

/-- The apostrophe character, spelled by code point. -/
def apostrophe : Char :=
  Char.ofNat 39

/-- Fallback body of `send_email_via_agent` (its literal contains two
apostrophes, assembled here by code point). -/
def fallbackBody : List Char :=
  "Oops, the joke didn".toList ++ [apostrophe] ++ "t load! But here".toList ++
    [apostrophe] ++ "s a smile anyway: 😊".toList

/-- Prefix of the error produced when JSON parsing fails. -/
def parseErrorPrefix : List Char :=
  "Failed to parse JSON response: ".toList

/-- Embeds `serde_json`'s `Value::index` for a string key as used by
`email_content["subject"]`: on an object, the value of the first field with
that key, `Null` when absent; `Null` on every non-object. -/
def jsonIndex (v : JsonValue) (key : List Char) : JsonValue :=
  match v with
  | JsonValue.obj fields =>
    match fields.find? (fun p => p.1 == key) with
    | some p => p.2
    | none => JsonValue.null
  | _ => JsonValue.null

/-- Embeds `serde_json`'s `Value::as_str`. -/
def asStr : JsonValue → Option (List Char)
  | JsonValue.str s => some s
  | _ => none

/-- Embeds the parse-and-extract stage of `send_email_via_agent` from
src/src/main.rs (lines 186-196): a parse failure is mapped to an
`EmailError` and returned; on success, subject and body are read with
`as_str().unwrap_or(...)` fallbacks and no error is possible. -/
def extractEmailContent (parseResult : Except (List Char) JsonValue) :
    Except (List Char) (List Char × List Char) :=
  match parseResult with
  | Except.error e => Except.error (parseErrorPrefix ++ e)
  | Except.ok v =>
    Except.ok ((asStr (jsonIndex v subjectKey)).getD fallbackSubject,
      (asStr (jsonIndex v bodyKey)).getD fallbackBody)

/-- Decision of the Retry Policy. -/
inductive RetryDecision where
  | retryAfterDelay
  | giveUp
deriving DecidableEq

/-- The configured maximum attempt count, from `RetryPolicy::retries(5)` in
src/src/main.rs. -/
def max_attempts : Nat :=
  5

/-- Modelled from the spec: the Retry Policy `decide(attempts, error)` of the
apalis retry layer (not under src) returns `GiveUp` once
`attempts >= max_attempts` and a retry otherwise. -/
def RetryPolicy.decide (maxAttempts attempts : Nat) (_err : List Char) :
    RetryDecision :=
  if maxAttempts ≤ attempts then RetryDecision.giveUp
  else RetryDecision.retryAfterDelay

/-- Status of a job row. -/
inductive JobStatus where
  | pending
  | leased
  | succeeded
  | failed
deriving DecidableEq

/-- The part of a job row that the retry bound is about. -/
structure RetryJobState where
  status : JobStatus
  attempts : Nat
deriving DecidableEq

/-- Modelled from the spec: one executed attempt of a job whose handler always
fails.  `lease` increments `attempts`; the handler errors; `fail` consults the
Retry Policy with the current attempt count and either resets the row to
`Pending` or marks it terminally `Failed`. -/
def failingAttempt (err : List Char) (s : RetryJobState) : RetryJobState :=
  match RetryPolicy.decide max_attempts (s.attempts + 1) err with
  | RetryDecision.retryAfterDelay => ⟨JobStatus.pending, s.attempts + 1⟩
  | RetryDecision.giveUp => ⟨JobStatus.failed, s.attempts + 1⟩

/-- Modelled from the spec: the state of an always-failing job after `n`
worker polls, starting from a fresh `Pending` row with `attempts = 0`; a poll
executes an attempt only while the row is `Pending`. -/
def runFailing (err : List Char) : Nat → RetryJobState
  | 0 => ⟨JobStatus.pending, 0⟩
  | n + 1 =>
    if (runFailing err n).status = JobStatus.pending then
      failingAttempt err (runFailing err n)
    else runFailing err n

/-- Seconds field of a timestamp measured in seconds since the epoch. -/
def secondOf (t : Nat) : Nat :=
  t % 60

/-- Minute field of a timestamp measured in seconds since the epoch. -/
def minuteOf (t : Nat) : Nat :=
  t / 60 % 60

/-- Modelled from the spec: the fire-time predicate denoted by the six-field
cron expression "0 */2 * * * *" (the cron crate is not under src) — seconds
field 0 and minute field divisible by 2, every hour, day, month and weekday. -/
def isFireTime (t : Nat) : Bool :=
  decide (secondOf t = 0) && decide (minuteOf t % 2 = 0)

/-- Modelled from the spec: `next_fire(cron_expr, after)` for the configured
expression — the earliest timestamp strictly after `after` lying on the
120-second grid of fire times. -/
def next_fire (after : Nat) : Nat :=
  after + (120 - after % 120)

/-- A durable job row, after the logical schema of the spec. -/
structure QJob where
  id : Nat
  ns : List Char
  scheduled_for : Nat
  payload : Nat
  status : JobStatus
  attempts : Nat
  lease_owner : Option Nat
  lease_expires_at : Option Nat
  last_error : Option (List Char)
deriving DecidableEq

/-- The durable job store. -/
structure JobStore where
  jobs : List QJob
  nextId : Nat
deriving DecidableEq

/-- Result of `enqueue`. -/
inductive EnqueueResult where
  | inserted (id : Nat)
  | duplicateError
deriving DecidableEq

/-- Whether a row has the given dedup key `(namespace, scheduled_for)`. -/
def keyMatches (ns : List Char) (sched : Nat) (j : QJob) : Bool :=
  decide (j.ns = ns ∧ j.scheduled_for = sched)

/-- A fresh `Pending` row as inserted by `enqueue`. -/
def newPendingJob (id : Nat) (ns : List Char) (sched : Nat) (payload : Nat) :
    QJob :=
  ⟨id, ns, sched, payload, JobStatus.pending, 0, none, none, none⟩

/-- Modelled from the spec: `enqueue(namespace, scheduled_for, payload)` of the
job store (apalis-sql, not under src) — insert a `Pending` row unless a row
with the same `(namespace, scheduled_for)` already exists, in which case the
`UNIQUE` constraint rejects the insert with a `DuplicateError` and the store is
unchanged. -/
def enqueue (st : JobStore) (ns : List Char) (sched : Nat) (payload : Nat) :
    EnqueueResult × JobStore :=
  if st.jobs.any (keyMatches ns sched) then
    (EnqueueResult.duplicateError, st)
  else
    (EnqueueResult.inserted st.nextId,
     ⟨st.jobs ++ [newPendingJob st.nextId ns sched payload], st.nextId + 1⟩)

/-- The dedup key of a row. -/
def jobKey (j : QJob) : List Char × Nat :=
  (j.ns, j.scheduled_for)

/-- The store as seen by `lease`, together with the current instant. -/
structure LeaseStore where
  jobs : List QJob
  now : Nat
deriving DecidableEq

/-- Whether a row's lease has expired at instant `now`. -/
def leaseExpired (now : Nat) (j : QJob) : Bool :=
  match j.lease_expires_at with
  | some e => decide (e ≤ now)
  | none => false

/-- Modelled from the spec: a row is eligible for leasing when it is `Pending`,
or `Leased` with an expired lease (crash recovery), in the requested
namespace. -/
def jobEligible (now : Nat) (ns : List Char) (j : QJob) : Bool :=
  decide (j.ns = ns) && (decide (j.status = JobStatus.pending) ||
    (decide (j.status = JobStatus.leased) && leaseExpired now j))

/-- The eligible row with the smallest `scheduled_for` (oldest-due first). -/
def pickMin : List QJob → Option QJob
  | [] => none
  | j :: rest =>
    match pickMin rest with
    | none => some j
    | some b => if j.scheduled_for ≤ b.scheduled_for then some j else some b

/-- Modelled from the spec: `lease(namespace, worker_id, lease_duration)` of
the job store (apalis-sql, not under src) — in one atomic transaction, select
the oldest-due eligible row, mark it `Leased` by the worker with expiry
`now + lease_duration`, and increment `attempts`; `None` when no row is
eligible.  The transaction is the store-level atomic step that concurrent
workers interleave. -/
def lease (st : LeaseStore) (ns : List Char) (worker : Nat) (dur : Nat) :
    Option (QJob × LeaseStore) :=
  match pickMin (st.jobs.filter (jobEligible st.now ns)) with
  | none => none
  | some j =>
    some ({ j with
            status := JobStatus.leased
            lease_owner := some worker
            lease_expires_at := some (st.now + dur)
            attempts := j.attempts + 1 },
      ⟨st.jobs.map (fun k =>
        if k.id = j.id then
          { j with
            status := JobStatus.leased
            lease_owner := some worker
            lease_expires_at := some (st.now + dur)
            attempts := j.attempts + 1 }
        else k), st.now⟩)

/-- The namespace configured by `Config::new("reminder::DailyReminder")` in
src/src/main.rs. -/
def reminderNs : List Char :=
  "reminder::DailyReminder".toList

/-- Concrete store row: a job leased by worker 7 until instant 50. -/
def c6jobA : QJob :=
  ⟨0, reminderNs, 100, 0, JobStatus.leased, 1, some 7, some 50, none⟩

/-- Concrete store row: a pending job. -/
def c6jobB : QJob :=
  ⟨1, reminderNs, 120, 0, JobStatus.pending, 0, none, none, none⟩

/-- Concrete store at instant 10, holding `c6jobA` and `c6jobB`. -/
def c6store : LeaseStore :=
  ⟨[c6jobA, c6jobB], 10⟩

/-- The row `c6jobB` as claimed by worker 9 for 30 seconds at instant 10. -/
def c6leased : QJob :=
  ⟨1, reminderNs, 120, 0, JobStatus.leased, 1, some 9, some 40, none⟩

/-- The store `c6store` after worker 9 leases `c6jobB`. -/
def c6store2 : LeaseStore :=
  ⟨[c6jobA, c6leased], 10⟩

/-- A row of the `contacts` table, as read by add_company_id.rs. -/
structure RContact where
  id : Int
  company : List Char
  company_id : Option Int
deriving DecidableEq

/-- A row of the `companies` table, as read by add_company_id.rs. -/
structure RCompany where
  id : Int
  name : List Char
  website : List Char
deriving DecidableEq

/-- The database state visible to `add_company_id`: the two tables plus the
generator of fresh `companies` ids. -/
structure CrmDb where
  contacts : List RContact
  companies : List RCompany
  nextCompanyId : Int
deriving DecidableEq

/-- The placeholder website bound on every inserted company. -/
def placeholderWebsite : List Char :=
  "https://placeholder.example.com".toList

/-- Embeds `SELECT id, name, website FROM companies WHERE name = $1` with
`fetch_optional`. -/
def findCompanyByName (cos : List RCompany) (nm : List Char) :
    Option RCompany :=
  cos.find? (fun c => c.name == nm)

/-- Embeds `UPDATE contacts SET company_id = $1 WHERE id = $2`. -/
def setContactCompany (contacts : List RContact) (cid coId : Int) :
    List RContact :=
  contacts.map (fun c =>
    if c.id = cid then { c with company_id := some coId } else c)

/-- Embeds the per-contact loop of `add_company_id` from
src/connections-importer/src/bin/add_company_id.rs, running against the
transaction-local state `tx`.  `oracle q = true` means the `q`-th database
query fails, in which case the function returns early (`?`), which drops and
thereby rolls back the transaction — modelled by returning `none`.  A contact
whose `company` is empty after trimming is skipped with no query.  Otherwise:
look the company up by name (one query); if absent, insert it with the
placeholder website (one query); finally update the contact's `company_id`
(one query). -/
def processContacts (oracle : Nat → Bool) :
    List RContact → CrmDb → Nat → Option (CrmDb × Nat)
  | [], tx, q => some (tx, q)
  | c :: rest, tx, q =>
    if trim c.company = [] then
      processContacts oracle rest tx q
    else if oracle q then
      none
    else
      match findCompanyByName tx.companies c.company with
      | some comp =>
        if oracle (q + 1) then none
        else
          processContacts oracle rest
            { tx with contacts := setContactCompany tx.contacts c.id comp.id }
            (q + 2)
      | none =>
        if oracle (q + 1) then none
        else if oracle (q + 2) then none
        else
          processContacts oracle rest
            { contacts :=
                setContactCompany tx.contacts c.id tx.nextCompanyId
              companies :=
                tx.companies ++
                  [⟨tx.nextCompanyId, c.company, placeholderWebsite⟩]
              nextCompanyId := tx.nextCompanyId + 1 }
            (q + 3)

/-- Result of one call to `add_company_id`: whether it returned `Ok`, and the
durable database state after the call. -/
structure CallOutcome where
  ok : Bool
  durable : CrmDb
deriving DecidableEq

/-- Embeds `add_company_id` from add_company_id.rs: begin one transaction,
fetch the contacts with `company_id IS NULL` (query 0), run the loop, and
commit at the very end (one more query).  Any failing query makes the function
return an error with the transaction rolled back, so the durable state is the
input state on every error path and the transaction-local state only on
successful commit. -/
def add_company_id (db : CrmDb) (oracle : Nat → Bool) : CallOutcome :=
  if oracle 0 then ⟨false, db⟩
  else
    match processContacts oracle
        (db.contacts.filter (fun c => c.company_id.isNone)) db 1 with
    | none => ⟨false, db⟩
    | some (tx, q) => if oracle q then ⟨false, db⟩ else ⟨true, tx⟩

/-- Concrete database: one contact with a blank company, one with a fresh
company name, no companies. -/
def c10db : CrmDb :=
  ⟨[⟨1, "  ".toList, none⟩, ⟨2, "Acme".toList, none⟩], [], 100⟩

/-- Concrete oracle under which every query succeeds. -/
def c10oracle : Nat → Bool :=
  fun _ => false

/-! ## Helper lemmas -/

theorem dropWhile_suffix_ex (p : Char → Bool) (s : List Char) :
    ∃ pre, pre ++ s.dropWhile p = s := by
  induction s with
  | nil => exact ⟨[], rfl⟩
  | cons c cs ih =>
    by_cases h : p c = true
    · obtain ⟨pre, hpre⟩ := ih
      exact ⟨c :: pre, by simp [List.dropWhile_cons, h, hpre]⟩
    · exact ⟨[], by simp [List.dropWhile_cons, h]⟩

theorem trimEnd_prefix_ex (s : List Char) :
    ∃ post, trimEnd s ++ post = s := by
  obtain ⟨pre, hpre⟩ := dropWhile_suffix_ex isRustWhitespace s.reverse
  refine ⟨pre.reverse, ?_⟩
  have h2 := congrArg List.reverse hpre
  simpa [trimEnd, List.reverse_append] using h2

theorem trim_sandwich (s : List Char) :
    ∃ pre post, pre ++ trim s ++ post = s := by
  obtain ⟨pre, hpre⟩ := dropWhile_suffix_ex isRustWhitespace s
  obtain ⟨post, hpost⟩ := trimEnd_prefix_ex (trimStart s)
  refine ⟨pre, post, ?_⟩
  rw [trim, List.append_assoc, hpost]
  exact hpre

theorem startsWith_append_left (p q s : List Char) :
    startsWith (p ++ q) s = true → startsWith p s = true := by
  induction p generalizing s with
  | nil => intro _; rfl
  | cons a p1 ih =>
    intro h
    cases s with
    | nil => simp [startsWith] at h
    | cons c cs =>
      simp only [List.cons_append, startsWith, Bool.and_eq_true] at h ⊢
      exact ⟨h.1, ih cs h.2⟩

theorem trimStartMatchesAux_suffix_ex (pat : List Char) (fuel : Nat) :
    ∀ s : List Char, ∃ pre, pre ++ trimStartMatchesAux pat fuel s = s := by
  induction fuel with
  | zero => intro s; exact ⟨[], rfl⟩
  | succ n ih =>
    intro s
    by_cases h : (!pat.isEmpty && startsWith pat s) = true
    · obtain ⟨pre, hpre⟩ := ih (s.drop pat.length)
      refine ⟨s.take pat.length ++ pre, ?_⟩
      simp only [trimStartMatchesAux, h, if_true]
      rw [List.append_assoc, hpre, List.take_append_drop]
    · exact ⟨[], by simp [trimStartMatchesAux, h]⟩

theorem trimStartMatchesAux_no_match (pat : List Char) (fuel : Nat)
    (s : List Char) (h : startsWith pat s = false) :
    trimStartMatchesAux pat fuel s = s := by
  cases fuel with
  | zero => rfl
  | succ n => simp [trimStartMatchesAux, h]

theorem trimEndMatches_prefix_ex (pat s : List Char) :
    ∃ post, trimEndMatches pat s ++ post = s := by
  obtain ⟨pre, hpre⟩ :=
    trimStartMatchesAux_suffix_ex pat.reverse s.reverse.length s.reverse
  refine ⟨pre.reverse, ?_⟩
  have h2 := congrArg List.reverse hpre
  simpa [trimEndMatches, List.reverse_append] using h2

theorem sandwich_trans {a b c : List Char}
    (h1 : ∃ pre post, pre ++ a ++ post = b)
    (h2 : ∃ pre post, pre ++ b ++ post = c) :
    ∃ pre post, pre ++ a ++ post = c := by
  obtain ⟨p1, q1, hb⟩ := h1
  obtain ⟨p2, q2, hc⟩ := h2
  refine ⟨p2 ++ p1, q1 ++ q2, ?_⟩
  rw [← hc, ← hb]
  simp [List.append_assoc]

theorem suffix_sandwich {a b : List Char} (h : ∃ pre, pre ++ a = b) :
    ∃ pre post, pre ++ a ++ post = b := by
  obtain ⟨pre, hpre⟩ := h
  exact ⟨pre, [], by simp [hpre]⟩

theorem prefix_sandwich {a b : List Char} (h : ∃ post, a ++ post = b) :
    ∃ pre post, pre ++ a ++ post = b := by
  obtain ⟨post, hpost⟩ := h
  exact ⟨[], post, hpost⟩

theorem fenceJson_decomp : fenceJson = fence ++ ("json".toList) := by
  decide

/-! ## Claims -/

/-- Claim C1, counterexample: when the email send fails, `say_hello_world`
still produces a `success` handler outcome, so the worker acknowledges the
attempt instead of calling `fail` — success is reported for an attempt whose
work errored. -/
theorem C1_counterexample :
    workerReport (say_hello_world
      (Except.error ("Email error: send failed".toList))).2 =
      WorkerReport.acknowledge ∧
    workerReport (say_hello_world
      (Except.error ("Email error: send failed".toList))).2 ≠
      WorkerReport.fail ("Email error: send failed".toList) :=
  ⟨rfl, by decide⟩

/-- Claim C1, amended: `say_hello_world` swallows the email-sending failure —
it logs the error and completes normally — so for every outcome of
`send_email_via_agent` the worker reports `acknowledge`, and `fail` (with the
Retry Policy behind it) is never invoked for an email error. -/
theorem C1_handler_swallows_email_error (r : Except (List Char) Unit) :
    workerReport (say_hello_world r).2 = WorkerReport.acknowledge := by
  cases r <;> rfl

/-- Claim C2, counterexample: with a cron expression whose parse fails, the
trace of `MyService::bind` ends in a panic — the error value is unwrapped with
`expect`, not handled. -/
theorem C2_counterexample :
    bindTrace (Except.ok ()) (Except.error ("not a cron".toList)) =
      [BindEvent.migrationsCompleted, BindEvent.panicked] ∧
    BindEvent.panicked ∈
      bindTrace (Except.ok ()) (Except.error ("not a cron".toList)) :=
  ⟨rfl, by decide⟩

/-- Claim C2, amended: `Schedule::from_str` does fail with an error value when
the expression cannot be parsed, but `bind` unwraps that value with `expect`,
so an unparseable configured expression panics the process at startup instead
of being handled; the worker is never reached in that case. -/
theorem C2_parse_error_panics (e : List Char) :
    bindTrace (Except.ok ()) (Except.error e) =
      [BindEvent.migrationsCompleted, BindEvent.panicked] := rfl

/-- Claim C7: if the worker ever runs, the storage migrations succeeded, and
the trace of `bind` puts `migrationsCompleted` strictly before `workerRun`
(and before the cron stream start); a failed setup panics before any worker
poll. -/
theorem C7_setup_before_worker (s : Except (List Char) Unit)
    (p : Except (List Char) CronSchedule)
    (h : BindEvent.workerRun ∈ bindTrace s p) :
    s = Except.ok () ∧
    bindTrace s p = [BindEvent.migrationsCompleted,
      BindEvent.cronStreamStarted, BindEvent.workerRun] := by
  cases s with
  | error e => simp [bindTrace] at h
  | ok u =>
    cases p with
    | error e2 => simp [bindTrace] at h
    | ok sch => exact ⟨rfl, rfl⟩

/-- Witness for C7 at the concrete successful setup and the configured
schedule. -/
theorem C7_witness :
    BindEvent.workerRun ∈
      bindTrace (Except.ok ()) (Except.ok ⟨schedule_str⟩) ∧
    bindTrace (Except.ok ()) (Except.ok ⟨schedule_str⟩) =
      [BindEvent.migrationsCompleted, BindEvent.cronStreamStarted,
       BindEvent.workerRun] :=
  ⟨by decide,
   (C7_setup_before_worker (Except.ok ()) (Except.ok ⟨schedule_str⟩)
     (by decide)).2⟩

/-- Claim C8: `sanitize_json` returns a contiguous substring of its input
(obtained by peeling a prefix and a suffix), and is the identity on strings
that are already trimmed and carry no leading or trailing code fence. -/
theorem C8_sanitize_json_shape (s : List Char) :
    (∃ pre post, pre ++ sanitize_json s ++ post = s) ∧
    (trim s = s → startsWith fence s = false → endsWith fence s = false →
      sanitize_json s = s) := by
  constructor
  · have a5 := trim_sandwich s
    have a4 := suffix_sandwich
      (trimStartMatchesAux_suffix_ex fenceJson (trim s).length (trim s))
    have a3 := suffix_sandwich
      (trimStartMatchesAux_suffix_ex fence
        (trimStartMatches fenceJson (trim s)).length
        (trimStartMatches fenceJson (trim s)))
    have a2 := prefix_sandwich
      (trimEndMatches_prefix_ex fence
        (trimStartMatches fence (trimStartMatches fenceJson (trim s))))
    have a1 := trim_sandwich
      (trimEndMatches fence
        (trimStartMatches fence (trimStartMatches fenceJson (trim s))))
    exact sandwich_trans a1 (sandwich_trans a2 (sandwich_trans a3
      (sandwich_trans a4 a5)))
  · intro h0 h1 h2
    have hfj : startsWith fenceJson s = false := by
      cases hsw : startsWith fenceJson s with
      | false => rfl
      | true =>
        have h3 : startsWith fence s = true := by
          apply startsWith_append_left fence ("json".toList) s
          rw [← fenceJson_decomp]
          exact hsw
        rw [h3] at h1
        cases h1
    have h2e : startsWith fence.reverse s.reverse = false := h2
    simp only [sanitize_json, h0, trimStartMatches]
    rw [trimStartMatchesAux_no_match _ _ _ hfj]
    rw [trimStartMatchesAux_no_match _ _ _ h1]
    rw [trimEndMatches]
    rw [trimStartMatchesAux_no_match _ _ _ h2e, List.reverse_reverse]
    exact h0

/-- Witness for C8 at a concrete trimmed, fence-free string. -/
theorem C8_witness :
    trim ("hello".toList) = "hello".toList ∧
    startsWith fence ("hello".toList) = false ∧
    endsWith fence ("hello".toList) = false ∧
    sanitize_json ("hello".toList) = "hello".toList :=
  ⟨by decide, by decide, by decide,
   (C8_sanitize_json_shape ("hello".toList)).2 (by decide) (by decide)
     (by decide)⟩

/-- Claim C9: once the LLM response parses as JSON, a missing or non-string
subject or body is never an error — the subject falls back to the fixed
fallback subject and the body to the fixed fallback joke — and the
parse-and-extract stage errors exactly on a parse failure. -/
theorem C9_parse_fallbacks (v : JsonValue) (e : List Char) :
    (∀ msg, extractEmailContent (Except.ok v) ≠ Except.error msg) ∧
    (asStr (jsonIndex v subjectKey) = none →
      extractEmailContent (Except.ok v) =
        Except.ok (fallbackSubject,
          (asStr (jsonIndex v bodyKey)).getD fallbackBody)) ∧
    (asStr (jsonIndex v bodyKey) = none →
      extractEmailContent (Except.ok v) =
        Except.ok ((asStr (jsonIndex v subjectKey)).getD fallbackSubject,
          fallbackBody)) ∧
    extractEmailContent (Except.error e) =
      Except.error (parseErrorPrefix ++ e) := by
  refine ⟨?_, ?_, ?_, rfl⟩
  · intro msg h
    simp [extractEmailContent] at h
  · intro h
    simp [extractEmailContent, h]
  · intro h
    simp [extractEmailContent, h]

/-- Closed form of `runFailing`: pending with `n` attempts while `n < 5`,
terminally failed with 5 attempts afterwards. -/
theorem runFailing_closed (err : List Char) (n : Nat) :
    runFailing err n =
      if n < 5 then ⟨JobStatus.pending, n⟩ else ⟨JobStatus.failed, 5⟩ := by
  induction n with
  | zero => simp [runFailing]
  | succ n ih =>
    by_cases h : n < 5
    · by_cases h2 : n + 1 < 5
      · have hd : RetryPolicy.decide max_attempts (n + 1) err =
            RetryDecision.retryAfterDelay := by
          simp only [RetryPolicy.decide, max_attempts]
          rw [if_neg (by omega)]
        simp [runFailing, ih, h, h2, failingAttempt, hd]
      · have h4 : n = 4 := by omega
        subst h4
        simp [runFailing, ih, failingAttempt, RetryPolicy.decide,
          max_attempts]
    · have h2 : ¬(n + 1 < 5) := by omega
      simp [runFailing, ih, h, h2]

/-- Claim C3: with `RetryPolicy::retries(5)`, the retry decision is `GiveUp`
exactly when `attempts >= 5`; an always-failing job is terminally `Failed`
with exactly 5 attempts after the 5th poll and stays there forever — never
more than 5 attempts. -/
theorem C3_retry_bound (err : List Char) :
    (∀ a : Nat,
      RetryPolicy.decide max_attempts a err = RetryDecision.giveUp ↔ 5 ≤ a) ∧
    runFailing err 5 = ⟨JobStatus.failed, 5⟩ ∧
    (∀ n : Nat, 5 ≤ n → runFailing err n = ⟨JobStatus.failed, 5⟩) ∧
    (∀ n : Nat, (runFailing err n).attempts ≤ 5) := by
  refine ⟨?_, ?_, ?_, ?_⟩
  · intro a
    constructor
    · intro h
      by_cases h5 : 5 ≤ a
      · exact h5
      · simp [RetryPolicy.decide, max_attempts, h5] at h
    · intro h
      simp [RetryPolicy.decide, max_attempts, h]
  · rw [runFailing_closed]
    simp
  · intro n hn
    rw [runFailing_closed]
    rw [if_neg (by omega)]
  · intro n
    rw [runFailing_closed]
    by_cases h : n < 5
    · rw [if_pos h]
      show n ≤ 5
      omega
    · rw [if_neg h]

/-- Witness for C3 at seven polls of an always-failing job. -/
theorem C3_witness :
    5 ≤ 7 ∧ runFailing ("handler failed".toList) 7 = ⟨JobStatus.failed, 5⟩ :=
  ⟨by omega, (C3_retry_bound ("handler failed".toList)).2.2.1 7 (by omega)⟩

/-- Claim C4: `next_fire` is a pure function (trivially deterministic), and
for the configured expression "0 */2 * * * *" it returns the earliest
timestamp strictly after `after` whose seconds field is 0 and whose minute is
divisible by 2. -/
theorem C4_next_fire_spec (after : Nat) :
    next_fire after = next_fire after ∧
    after < next_fire after ∧
    isFireTime (next_fire after) = true ∧
    (∀ t : Nat, after < t → isFireTime t = true → next_fire after ≤ t) := by
  refine ⟨rfl, ?_, ?_, ?_⟩
  · unfold next_fire
    omega
  · unfold isFireTime next_fire secondOf minuteOf
    simp only [Bool.and_eq_true, decide_eq_true_eq]
    omega
  · intro t ht hft
    unfold isFireTime secondOf minuteOf at hft
    simp only [Bool.and_eq_true, decide_eq_true_eq] at hft
    unfold next_fire
    omega

/-- Witness for C4: from timestamp 130 the next fire time is at most 240,
which is a fire time strictly after 130. -/
theorem C4_witness :
    130 < 240 ∧ isFireTime 240 = true ∧ next_fire 130 ≤ 240 :=
  ⟨by omega, by decide, (C4_next_fire_spec 130).2.2.2 240 (by omega)
    (by decide)⟩

/-- Claim C5: enqueuing the same `(namespace, scheduled_for)` twice when no
row with that key exists inserts once, then fails with `DuplicateError`
leaving the store unchanged, and exactly one `Pending` row with that key
results; moreover `enqueue` preserves key-uniqueness of the whole store, so no
two rows (a fortiori no two Pending/Leased/Succeeded rows) in a namespace ever
share a `scheduled_for`. -/
theorem C5_enqueue_dedup (st : JobStore) (ns : List Char) (sched p1 p2 : Nat) :
    (st.jobs.any (keyMatches ns sched) = false →
      (enqueue st ns sched p1).1 = EnqueueResult.inserted st.nextId ∧
      (enqueue ((enqueue st ns sched p1).2) ns sched p2).1 =
        EnqueueResult.duplicateError ∧
      (enqueue ((enqueue st ns sched p1).2) ns sched p2).2 =
        (enqueue st ns sched p1).2 ∧
      ((enqueue ((enqueue st ns sched p1).2) ns sched p2).2.jobs.filter
        (fun j => keyMatches ns sched j &&
          decide (j.status = JobStatus.pending))).length = 1) ∧
    ((st.jobs.map jobKey).Nodup →
      (((enqueue st ns sched p1).2).jobs.map jobKey).Nodup) := by
  constructor
  · intro h
    have hkm : keyMatches ns sched (newPendingJob st.nextId ns sched p1) =
        true := by
      simp [keyMatches, newPendingJob]
    have he1 : (enqueue st ns sched p1).2 =
        ⟨st.jobs ++ [newPendingJob st.nextId ns sched p1], st.nextId + 1⟩ := by
      simp [enqueue, h]
    have hany2 : (st.jobs ++ [newPendingJob st.nextId ns sched p1]).any
        (keyMatches ns sched) = true := by
      simp only [List.any_append, List.any_cons, List.any_nil, hkm]
      simp
    refine ⟨by simp [enqueue, h], ?_, ?_, ?_⟩
    · rw [he1]
      simp [enqueue, hany2]
    · rw [he1]
      simp [enqueue, hany2]
    · rw [he1]
      simp only [enqueue, hany2, if_true]
      rw [List.filter_append]
      have hnil : st.jobs.filter (fun j => keyMatches ns sched j &&
          decide (j.status = JobStatus.pending)) = [] := by
        rw [List.filter_eq_nil_iff]
        intro j hj
        have hjf := List.any_eq_false.mp h j hj
        simp [hjf]
      rw [hnil]
      simp [List.filter_cons, keyMatches, newPendingJob]
  · intro hnd
    by_cases h : st.jobs.any (keyMatches ns sched) = true
    · simp [enqueue, h, hnd]
    · have hf : st.jobs.any (keyMatches ns sched) = false := by
        simpa using h
      simp only [enqueue, hf, Bool.false_eq_true, if_false]
      rw [List.map_append]
      rw [List.nodup_append]
      refine ⟨hnd, by simp, ?_⟩
      intro a ha hb
      simp only [List.map_cons, List.map_nil, List.mem_singleton] at hb
      subst hb
      rw [List.mem_map] at ha
      obtain ⟨j, hj, hkey⟩ := ha
      have hjf := List.any_eq_false.mp hf j hj
      apply hjf
      simp only [keyMatches, newPendingJob, jobKey] at hkey ⊢
      rw [decide_eq_true_eq]
      exact ⟨congrArg Prod.fst hkey, congrArg Prod.snd hkey⟩

/-- Witness for C5: double-enqueue of the reminder namespace at timestamp 120
into the empty store. -/
theorem C5_witness :
    (JobStore.mk [] 0).jobs.any (keyMatches reminderNs 120) = false ∧
    (enqueue ((enqueue ⟨[], 0⟩ reminderNs 120 120).2) reminderNs 120 120).1 =
      EnqueueResult.duplicateError :=
  ⟨by decide,
   ((C5_enqueue_dedup ⟨[], 0⟩ reminderNs 120 120 120).1 (by decide)).2.1⟩

/-- Members of a list with duplicate-free image under `f` are determined by
their image. -/
theorem nodup_map_mem_inj {α β : Type} (f : α → β) :
    ∀ l : List α, (l.map f).Nodup →
      ∀ a, a ∈ l → ∀ b, b ∈ l → f a = f b → a = b := by
  intro l
  induction l with
  | nil =>
    intro _ a ha
    cases ha
  | cons x xs ih =>
    intro hnd a ha b hb hfab
    rw [List.map_cons, List.nodup_cons] at hnd
    rcases List.mem_cons.mp ha with rfl | ha2
    · rcases List.mem_cons.mp hb with rfl | hb2
      · rfl
      · exact absurd (hfab ▸ List.mem_map_of_mem f hb2) hnd.1
    · rcases List.mem_cons.mp hb with rfl | hb2
      · exact absurd (hfab ▸ List.mem_map_of_mem f ha2) hnd.1
      · exact ih hnd.2 a ha2 b hb2 hfab

/-- `pickMin` returns a member of its argument. -/
theorem pickMin_mem_of_eq :
    ∀ (l : List QJob) (j : QJob), pickMin l = some j → j ∈ l := by
  intro l
  induction l with
  | nil =>
    intro j h
    cases h
  | cons a rest ih =>
    intro j h
    rw [pickMin] at h
    rcases hr : pickMin rest with _ | b
    · rw [hr] at h
      injection h with h2
      rw [← h2]
      exact List.mem_cons_self a rest
    · rw [hr] at h
      dsimp only at h
      by_cases hle : a.scheduled_for ≤ b.scheduled_for
      · rw [if_pos hle] at h
        injection h with h2
        rw [← h2]
        exact List.mem_cons_self a rest
      · rw [if_neg hle] at h
        injection h with h2
        rw [← h2]
        exact List.mem_cons_of_mem a (ih b hr)

/-- Claim C6: `lease` — the store's single atomic claim step that concurrent
workers interleave — never claims a job that another worker holds under an
active (non-expired) lease, and leaves that job's row untouched; hence no two
workers ever hold an active lease on the same job, and a job is never executed
by two workers simultaneously. -/
theorem C6_no_double_lease (st : LeaseStore) (j0 : QJob) (e : Nat)
    (ns : List Char) (w d : Nat) (j2 : QJob) (st2 : LeaseStore)
    (hnd : (st.jobs.map (fun j => j.id)).Nodup)
    (hmem : j0 ∈ st.jobs) (hst : j0.status = JobStatus.leased)
    (hexp : j0.lease_expires_at = some e) (hact : st.now < e)
    (hlease : lease st ns w d = some (j2, st2)) :
    j2.id ≠ j0.id ∧ j0 ∈ st2.jobs := by
  rw [lease] at hlease
  rcases hpick : pickMin (st.jobs.filter (jobEligible st.now ns)) with _ | j
  · rw [hpick] at hlease
    cases hlease
  · rw [hpick] at hlease
    injection hlease with hpair
    have hj2 := congrArg Prod.fst hpair
    have hst2 := congrArg Prod.snd hpair
    simp only at hj2 hst2
    have hjmem : j ∈ st.jobs.filter (jobEligible st.now ns) :=
      pickMin_mem_of_eq _ j hpick
    rw [List.mem_filter] at hjmem
    obtain ⟨hjin, helig⟩ := hjmem
    have hidne : j.id ≠ j0.id := by
      intro heq
      have hjj0 : j = j0 :=
        nodup_map_mem_inj (fun k => k.id) st.jobs hnd j hjin j0 hmem heq
      rw [hjj0, jobEligible, hst, leaseExpired, hexp] at helig
      simp at helig
      omega
    constructor
    · rw [← hj2]
      exact hidne
    · rw [← hst2]
      simp only []
      rw [List.mem_map]
      refine ⟨j0, hmem, ?_⟩
      rw [if_neg (fun hc => hidne (hc.symm))]

/-- Witness for C6: at instant 10 the store holds a job leased until 50 and a
pending job; leasing claims the pending job, not the actively leased one. -/
theorem C6_witness :
    (c6store.jobs.map (fun j => j.id)).Nodup ∧
    c6jobA ∈ c6store.jobs ∧
    c6jobA.status = JobStatus.leased ∧
    c6jobA.lease_expires_at = some 50 ∧
    c6store.now < 50 ∧
    lease c6store reminderNs 9 30 = some (c6leased, c6store2) ∧
    (c6leased.id ≠ c6jobA.id ∧ c6jobA ∈ c6store2.jobs) :=
  ⟨by decide, by decide, by decide, by decide, by decide, by decide,
   C6_no_double_lease c6store c6jobA 50 reminderNs 9 30 c6leased c6store2
     (by decide) (by decide) (by decide) (by decide) (by decide) (by decide)⟩

/-- An `UPDATE ... WHERE id = uid` leaves every row whose id differs from
`uid` with its old `company_id`; rows with id `cid ≠ uid` that were NULL stay
NULL. -/
theorem setContactCompany_keeps (contacts : List RContact) (uid coId cid : Int)
    (hne : uid ≠ cid)
    (h : ∀ r, r ∈ contacts → r.id = cid → r.company_id = none) :
    ∀ r, r ∈ setContactCompany contacts uid coId → r.id = cid →
      r.company_id = none := by
  intro r hr hid
  rw [setContactCompany, List.mem_map] at hr
  obtain ⟨r0, hr0, hmap⟩ := hr
  by_cases h0 : r0.id = uid
  · rw [if_pos h0] at hmap
    rw [← hmap] at hid
    exact absurd (h0.symm.trans hid) hne
  · rw [if_neg h0] at hmap
    rw [← hmap] at hid ⊢
    exact h r0 hr0 hid

/-- Through the whole per-contact loop, a contact id that is updated by no
snapshot entry (in particular one whose own `company` is blank) keeps a NULL
`company_id` in the transaction state. -/
theorem processContacts_keeps (oracle : Nat → Bool) (cid : Int) :
    ∀ (snapshot : List RContact) (tx : CrmDb) (q : Nat) (tx2 : CrmDb)
      (q2 : Nat),
      (∀ c2, c2 ∈ snapshot → ¬trim c2.company = [] → c2.id ≠ cid) →
      (∀ r, r ∈ tx.contacts → r.id = cid → r.company_id = none) →
      processContacts oracle snapshot tx q = some (tx2, q2) →
      ∀ r, r ∈ tx2.contacts → r.id = cid → r.company_id = none := by
  intro snapshot
  induction snapshot with
  | nil =>
    intro tx q tx2 q2 _ hall hp
    rw [processContacts] at hp
    injection hp with hp2
    obtain ⟨htx, _⟩ := Prod.mk.inj hp2
    rw [← htx]
    exact hall
  | cons c rest ih =>
    intro tx q tx2 q2 hsnap hall hp
    rw [processContacts] at hp
    by_cases hskip : trim c.company = []
    · rw [if_pos hskip] at hp
      exact ih tx q tx2 q2
        (fun c2 hm => hsnap c2 (List.mem_cons_of_mem c hm)) hall hp
    · rw [if_neg hskip] at hp
      have hcne : c.id ≠ cid := hsnap c (List.mem_cons_self c rest) hskip
      by_cases hq : oracle q = true
      · rw [if_pos hq] at hp
        cases hp
      · rw [if_neg hq] at hp
        rcases hfind : findCompanyByName tx.companies c.company with _ | comp
        · rw [hfind] at hp
          dsimp only at hp
          by_cases hq1 : oracle (q + 1) = true
          · rw [if_pos hq1] at hp
            cases hp
          · rw [if_neg hq1] at hp
            by_cases hq2 : oracle (q + 2) = true
            · rw [if_pos hq2] at hp
              cases hp
            · rw [if_neg hq2] at hp
              refine ih _ _ tx2 q2
                (fun c2 hm => hsnap c2 (List.mem_cons_of_mem c hm)) ?_ hp
              exact setContactCompany_keeps tx.contacts c.id tx.nextCompanyId
                cid hcne hall
        · rw [hfind] at hp
          dsimp only at hp
          by_cases hq1 : oracle (q + 1) = true
          · rw [if_pos hq1] at hp
            cases hp
          · rw [if_neg hq1] at hp
            refine ih _ _ tx2 q2
              (fun c2 hm => hsnap c2 (List.mem_cons_of_mem c hm)) ?_ hp
            exact setContactCompany_keeps tx.contacts c.id comp.id cid hcne
              hall

/-- Claim C10: `add_company_id` works in one transaction committed at the end
— on any failing query the call reports an error and the durable state is
unchanged — and a contact whose `company` is blank after trimming is skipped,
keeping `company_id` NULL in the committed state as well. -/
theorem C10_single_transaction (db : CrmDb) (oracle : Nat → Bool) :
    ((add_company_id db oracle).ok = false →
      (add_company_id db oracle).durable = db) ∧
    ((db.contacts.map (fun k => k.id)).Nodup →
      ∀ c, c ∈ db.contacts → c.company_id = none → trim c.company = [] →
        ((add_company_id db oracle).durable.contacts.all
          (fun r => decide (r.id = c.id → r.company_id = none))) = true) := by
  have hcases : add_company_id db oracle = ⟨false, db⟩ ∨
      ∃ tx q, processContacts oracle
          (db.contacts.filter (fun x => x.company_id.isNone)) db 1 =
            some (tx, q) ∧
        add_company_id db oracle = ⟨true, tx⟩ := by
    by_cases h0 : oracle 0 = true
    · left
      simp [add_company_id, h0]
    · rcases hp : processContacts oracle
          (db.contacts.filter (fun x => x.company_id.isNone)) db 1
        with _ | txq
      · left
        simp [add_company_id, h0, hp]
      · obtain ⟨tx, q⟩ := txq
        by_cases hq : oracle q = true
        · left
          simp [add_company_id, h0, hp, hq]
        · right
          exact ⟨tx, q, rfl, by simp [add_company_id, h0, hp, hq]⟩
  constructor
  · intro hok
    rcases hcases with h | ⟨tx, q, _, h⟩
    · rw [h]
    · rw [h] at hok
      cases hok
  · intro hnd c hc hcid hskip
    have hkeep0 : ∀ r, r ∈ db.contacts → r.id = c.id → r.company_id = none := by
      intro r hr hid
      have hrc : r = c :=
        nodup_map_mem_inj (fun k => k.id) db.contacts hnd r hr c hc hid
      rw [hrc]
      exact hcid
    have hfinal : ∀ r, r ∈ (add_company_id db oracle).durable.contacts →
        r.id = c.id → r.company_id = none := by
      rcases hcases with h | ⟨tx, q, hp, h⟩
      · rw [h]
        exact hkeep0
      · rw [h]
        refine processContacts_keeps oracle c.id
          (db.contacts.filter (fun x => x.company_id.isNone)) db 1 tx q
          ?_ hkeep0 hp
        intro c2 hm hne2 heq
        have hc2 : c2 ∈ db.contacts := (List.mem_filter.mp hm).1
        have hc2c : c2 = c :=
          nodup_map_mem_inj (fun k => k.id) db.contacts hnd c2 hc2 c hc heq
        rw [hc2c] at hne2
        exact hne2 hskip
    rw [List.all_eq_true]
    intro r hr
    rw [decide_eq_true_eq]
    exact hfinal r hr

/-- Witness for C10: in the concrete database the blank-company contact keeps
a NULL `company_id` after a fully successful run. -/
theorem C10_witness :
    (c10db.contacts.map (fun k => k.id)).Nodup ∧
    (⟨1, "  ".toList, none⟩ : RContact) ∈ c10db.contacts ∧
    (⟨1, "  ".toList, none⟩ : RContact).company_id = none ∧
    trim ("  ".toList) = [] ∧
    ((add_company_id c10db c10oracle).durable.contacts.all
      (fun r => decide (r.id = (⟨1, "  ".toList, none⟩ : RContact).id →
        r.company_id = none))) = true :=
  ⟨by decide, by decide, by decide, by decide,
   (C10_single_transaction c10db c10oracle).2 (by decide)
     ⟨1, "  ".toList, none⟩ (by decide) (by decide) (by decide)⟩

/-- Witness for C9 at the empty JSON object, where both fields are missing. -/
theorem C9_witness :
    asStr (jsonIndex (JsonValue.obj []) subjectKey) = none ∧
    extractEmailContent (Except.ok (JsonValue.obj [])) =
      Except.ok (fallbackSubject,
        (asStr (jsonIndex (JsonValue.obj []) bodyKey)).getD fallbackBody) :=
  ⟨rfl, (C9_parse_fallbacks (JsonValue.obj []) []).2.1 rfl⟩

end Crm
